import Mathlib

/-!
# Verification of the PathFinder `get_smallest_supset_ball` interface

The repository exposes a MEX wrapper (`src/src/myMEX/get_smallest_supset_ball.c`)
around an external numerical kernel `get_smallest_supset_ball`.  The kernel body
is not part of the repository, so the solver (`solve`) below is modelled from the
specification: ray sampling at uniform angles, an imaginary-part filter, a
max / min aggregation of real-part magnitudes, and an upper clamp by the
oscillation bound.  The MEX wrapper itself is embedded from the C source, with
MATLAB arrays modelled as rational matrices and C out-of-bounds reads modelled
by `Option`-valued indexing.

Doubles are modelled as rationals (`ℚ`); overflow to floating-point infinity is
out of scope.  A complex double is a pair `(re, im)` of rationals.
-/

/-- A complex double, modelled as a pair of rationals `(re, im)`. -/
abbrev Cx : Type := ℚ × ℚ

/-- The full argument record of the solver, mirroring
`solve(coeffs, freq, targetPoint, oscillationBound, rayCount, aggregateMax, imagThreshold)`
from the specification.  `rayCount` is an `int32` in the interface; it is
modelled as `ℤ` (its value range is never exercised arithmetically). -/
structure SolveParams where
  coeffs : List Cx
  freq : ℚ
  targetPoint : Cx
  oscillationBound : ℚ
  rayCount : ℤ
  aggregateMax : Bool
  imagThreshold : ℚ

/-- The two error conditions of the specification. -/
inductive SolveError where
  | InvalidInput : SolveError
  | AllSamplesInvalid : SolveError
deriving DecidableEq, Repr

/-- Modelled from the spec: the undisclosed modulation law of step 2 of §4.1.
It produces the complex sample `z_k` from the coefficient vector, the
frequency, the target point and the ray direction, the direction being passed
as the fraction of a full turn `θ_k / 2π` (a rational, keeping the model
executable).  The exact formula is declared a free design choice by the
specification, so the solver is parametric in it; every claim is settled for
all deterministic modulation laws. -/
abbrev Modulate : Type := List Cx → ℚ → Cx → ℚ → Cx

/-- Modelled from the spec, step 1 of §4.1: the list of ray directions for
`k ∈ [0, rayCount)` — uniform angular sampling around the unit circle.  Each
direction is stored as the fraction `k / rayCount` of a full turn, so the
direction angle is `θ_k = 2π · (k / rayCount) = 2πk / rayCount`. -/
def rayTurns (n : ℕ) : List ℚ :=
  (List.range n).map (fun k : ℕ => (k : ℚ) / (n : ℚ))

/-- Modelled from the spec, step 2 of §4.1: one complex sample per ray
direction, obtained by applying the modulation law to the inputs and the
direction. -/
def samples (m : Modulate) (p : SolveParams) : List Cx :=
  (rayTurns p.rayCount.toNat).map (m p.coeffs p.freq p.targetPoint)

/-- Modelled from the spec, step 3 of §4.1: discard every sample whose
imaginary-part magnitude exceeds `imagThreshold`. -/
def surviving (m : Modulate) (p : SolveParams) : List Cx :=
  (samples m p).filter (fun z => decide (|z.2| ≤ p.imagThreshold))

/-- The real-valued magnitudes of a list of samples.  A surviving sample has a
near-real value, and its magnitude is taken as the absolute value of the real
part. -/
def magnitudes (zs : List Cx) : List ℚ :=
  zs.map (fun z => |z.1|)

/-- Modelled from the spec, step 4 of §4.1: reduce the magnitudes by `max` when
`aggregateMax` is true, else by `min`.  The first magnitude is passed
separately so that the aggregate of a non-empty sample set is total. -/
def aggregate (takeMax : Bool) (x : ℚ) (xs : List ℚ) : ℚ :=
  if takeMax then xs.foldl max x else xs.foldl min x

/-- The precondition of §4.1: non-empty coefficients, at least one ray, and a
non-negative imaginary-part threshold. -/
def validInput (p : SolveParams) : Prop :=
  p.coeffs ≠ [] ∧ 1 ≤ p.rayCount ∧ 0 ≤ p.imagThreshold

instance (p : SolveParams) : Decidable (validInput p) := by
  unfold validInput; infer_instance

/-- Modelled from the spec: the missing kernel `get_smallest_supset_ball`,
reconstructed from §4.1 of the specification.  Validate the inputs, sample one
complex value per ray, filter by the imaginary-part threshold, fail when no
sample survives, otherwise aggregate the magnitudes and clamp the result above
by the oscillation bound (`r := min(r, oscillationBound)`). -/
def solve (m : Modulate) (p : SolveParams) : Except SolveError ℚ :=
  if p.coeffs = [] ∨ p.rayCount ≤ 0 ∨ p.imagThreshold < 0 then
    .error .InvalidInput
  else
    match surviving m p with
    | [] => .error .AllSamplesInvalid
    | z :: zs =>
        .ok (min (aggregate p.aggregateMax |z.1| (magnitudes zs)) p.oscillationBound)

/-- The aggregate of §4.1 before the oscillation-bound clamp, when at least one
sample survives the filter. -/
def unclampedAggregate (m : Modulate) (p : SolveParams) : Option ℚ :=
  match surviving m p with
  | [] => none
  | z :: zs => some (aggregate p.aggregateMax |z.1| (magnitudes zs))

/-!
## The MEX wrapper

`src/src/myMEX/get_smallest_supset_ball.c` is embedded below.  A MATLAB
`mxArray` is modelled as a rational matrix: a row count, a column count, a real
data buffer and an imaginary data buffer (empty for an `mxREAL` array).  The
conversion helpers of `interface.h` are not in the repository; they are
modelled from their names as total reads of the decoded values (a read past
the end of a data buffer yields `0`, abstracting the unchecked C memory read).
The two genuinely undefined behaviours of the wrapper are kept as `Option`
failure points: reading `prhs[i]` for `i ≥ nrhs`, and declaring the
variable-length array `double complex g_coeffs[g_coeffs_len]` with
`g_coeffs_len = 0` (a zero-size VLA is undefined in C). -/

/-- A MATLAB `mxArray` restricted to what the wrapper reads: dimensions and
numeric data.  An `mxREAL` array has `im = []`. -/
structure MxArray where
  rows : ℕ
  cols : ℕ
  re : List ℚ
  im : List ℚ
deriving DecidableEq, Repr

instance : Inhabited MxArray := ⟨⟨0, 0, [], []⟩⟩

/-- Modelled from the spec: `convert_mxvec_to_c` of the absent `interface.h`,
reading `rows` complex entries out of an `mxArray` into a C vector. -/
def convert_mxvec_to_c (a : MxArray) : List Cx :=
  (List.range a.rows).map (fun i => (a.re.getD i 0, a.im.getD i 0))

/-- Modelled from the spec: `convert_mxsca_to_double` of the absent
`interface.h`, reading one real scalar. -/
def convert_mxsca_to_double (a : MxArray) : ℚ :=
  a.re.getD 0 0

/-- Modelled from the spec: `convert_mxsca_to_c` of the absent `interface.h`,
reading one complex scalar. -/
def convert_mxsca_to_c (a : MxArray) : Cx :=
  (a.re.getD 0 0, a.im.getD 0 0)

/-- Modelled from the spec: `convert_mxint_to_int` of the absent
`interface.h`, reading one scalar and truncating it to an integer. -/
def convert_mxint_to_int (a : MxArray) : ℤ :=
  ⌊a.re.getD 0 0⌋

/-- Modelled from the spec: `convert_mxsca_to_bool` of the absent
`interface.h`, reading one scalar as a boolean (non-zero means true). -/
def convert_mxsca_to_bool (a : MxArray) : Bool :=
  decide (a.re.getD 0 0 ≠ 0)

/-- `mxCreateDoubleMatrix(m, n, mxREAL)`: a zero-initialised real `m × n`
matrix. -/
def mxCreateDoubleMatrixReal (m n : ℕ) : MxArray :=
  ⟨m, n, List.replicate (m * n) 0, []⟩

/-- Modelled from the spec: `convert_double_to_mxvec` of the absent
`interface.h`, storing one real scalar into an already-created `mxArray`. -/
def convert_double_to_mxvec (r : ℚ) (a : MxArray) : MxArray :=
  { a with re := [r] }

/-- The signature of the external kernel `get_smallest_supset_ball` as the
wrapper calls it: coefficient vector, frequency, target point, oscillation
bound, ray count, max toggle, imaginary threshold, and the coefficient count.
The C function returns a plain `double` with no error channel. -/
abbrev KernelFn : Type := List Cx → ℚ → Cx → ℚ → ℤ → Bool → ℚ → ℕ → ℚ

/-- The embedding of `mexFunction` from
`src/src/myMEX/get_smallest_supset_ball.c`.  The wrapper ignores `nlhs` and
`nrhs`, reads `prhs[0]`..`prhs[6]` (an `Option` failure when fewer arrays are
supplied), declares a VLA of `mxGetM(prhs[0])` elements (an `Option` failure
when that row count is zero), converts each argument, calls the kernel, and
returns a single `1×1` real output in `plhs[0]`. -/
def mexFunction (gssb : KernelFn) (nlhs nrhs : ℤ) (prhs : List MxArray) :
    Option (List MxArray) := do
  let _ := nlhs
  let _ := nrhs
  let a0 ← prhs.get? 0
  let g_coeffs_len := a0.rows
  if g_coeffs_len = 0 then
    none
  else
    let g_coeffs := convert_mxvec_to_c a0
    let a1 ← prhs.get? 1
    let freq := convert_mxsca_to_double a1
    let a2 ← prhs.get? 2
    let xi := convert_mxsca_to_c a2
    let a3 ← prhs.get? 3
    let Cosc := convert_mxsca_to_double a3
    let a4 ← prhs.get? 4
    let num_rays := convert_mxint_to_int a4
    let a5 ← prhs.get? 5
    let take_max := convert_mxsca_to_bool a5
    let a6 ← prhs.get? 6
    let imag_thresh := convert_mxsca_to_double a6
    let r := gssb g_coeffs freq xi Cosc num_rays take_max imag_thresh g_coeffs_len
    pure [convert_double_to_mxvec r (mxCreateDoubleMatrixReal 1 1)]

/-!
## Concrete instances used by witnesses and counterexamples
-/

/-- A modulation law producing the purely real sample `1` on every ray. -/
def mConst : Modulate := fun _ _ _ _ => (1, 0)

/-- A modulation law producing the purely imaginary sample `i` on every ray. -/
def mImag : Modulate := fun _ _ _ _ => (0, 1)

/-- The end-to-end example of §8: `coeffs = [1]`, `freq = 1`, `target = 0`,
`oscillationBound = 10`, `rayCount = 4`, `aggregateMax = true`,
`imagThreshold = 1`. -/
def pBase : SolveParams := ⟨[(1, 0)], 1, (0, 0), 10, 4, true, 1⟩

/-- `pBase` with an empty coefficient vector. -/
def pNil : SolveParams := { pBase with coeffs := [] }

/-- `pBase` with a zero imaginary threshold. -/
def pThresh0 : SolveParams := { pBase with imagThreshold := 0 }

/-- `pBase` with a single ray. -/
def pRay1 : SolveParams := { pBase with rayCount := 1 }

/-- `pBase` with the oscillation bound `-1`. -/
def pNegBound1 : SolveParams := { pBase with oscillationBound := -1 }

/-- `pBase` with the oscillation bound `-2`. -/
def pNegBound2 : SolveParams := { pBase with oscillationBound := -2 }

/-- A kernel stub returning the constant `3`, used to exercise the wrapper. -/
def gssbConst : KernelFn := fun _ _ _ _ _ _ _ _ => 3

/-- Seven `1×1` real arrays holding the value `2`, a full argument list for the
wrapper. -/
def prhs7 : List MxArray := List.replicate 7 ⟨1, 1, [2], []⟩

/-!
## Helper lemmas
-/

/-- A valid input falsifies the rejection condition of `solve`. -/
lemma not_rejected_of_valid (p : SolveParams) (h : validInput p) :
    ¬(p.coeffs = [] ∨ p.rayCount ≤ 0 ∨ p.imagThreshold < 0) := by
  obtain ⟨h1, h2, h3⟩ := h
  push_neg
  exact ⟨h1, by omega, by linarith⟩

/-- On a valid input, `solve` is the filter-aggregate-clamp pipeline. -/
lemma solve_valid_eq (m : Modulate) (p : SolveParams) (h : validInput p) :
    solve m p =
      match surviving m p with
      | [] => .error .AllSamplesInvalid
      | z :: zs =>
          .ok (min (aggregate p.aggregateMax |z.1| (magnitudes zs))
                p.oscillationBound) := by
  unfold solve
  rw [if_neg (not_rejected_of_valid p h)]

/-- A left fold by `max` dominates anything below its start. -/
lemma le_foldl_max (xs : List ℚ) : ∀ x y : ℚ, x ≤ y → x ≤ xs.foldl max y := by
  induction xs with
  | nil => exact fun x y h => h
  | cons a l ih =>
      intro x y h
      exact ih x (max y a) (le_trans h (le_max_left y a))

/-- A left fold by `min` stays below anything above its start. -/
lemma foldl_min_le (xs : List ℚ) : ∀ x y : ℚ, y ≤ x → xs.foldl min y ≤ x := by
  induction xs with
  | nil => exact fun x y h => h
  | cons a l ih =>
      intro x y h
      exact ih x (min y a) (le_trans (min_le_left y a) h)

/-- A left fold by `min` of non-negative values from a non-negative start is
non-negative. -/
lemma foldl_min_nonneg (xs : List ℚ) :
    ∀ x : ℚ, 0 ≤ x → (∀ a ∈ xs, 0 ≤ a) → 0 ≤ xs.foldl min x := by
  induction xs with
  | nil => exact fun x hx _ => hx
  | cons a l ih =>
      intro x hx hall
      exact ih (min x a) (le_min hx (hall a (List.mem_cons_self a l)))
        (fun b hb => hall b (List.mem_cons_of_mem a hb))

/-- Both aggregation modes preserve non-negativity of their inputs. -/
lemma aggregate_nonneg (b : Bool) (x : ℚ) (xs : List ℚ)
    (hx : 0 ≤ x) (hxs : ∀ a ∈ xs, 0 ≤ a) : 0 ≤ aggregate b x xs := by
  unfold aggregate
  cases b with
  | false =>
      simpa using foldl_min_nonneg xs x hx hxs
  | true =>
      simpa using le_foldl_max xs 0 x hx

/-- The `min` aggregate never exceeds the `max` aggregate of the same data. -/
lemma aggregate_min_le_max (x : ℚ) (xs : List ℚ) :
    aggregate false x xs ≤ aggregate true x xs := by
  unfold aggregate
  simp only [if_pos, if_neg, Bool.false_eq_true, ite_false, ite_true]
  exact le_trans (foldl_min_le xs x x le_rfl) (le_foldl_max xs x x le_rfl)

/-- Every magnitude is non-negative. -/
lemma magnitudes_nonneg (zs : List Cx) : ∀ a ∈ magnitudes zs, 0 ≤ a := by
  intro a ha
  unfold magnitudes at ha
  obtain ⟨z, _, rfl⟩ := List.mem_map.mp ha
  exact abs_nonneg _

/-- The filter stage ignores the aggregation toggle. -/
lemma surviving_set_aggMax (m : Modulate) (p : SolveParams) (b : Bool) :
    surviving m { p with aggregateMax := b } = surviving m p := rfl

/-- The filter stage ignores the oscillation bound. -/
lemma surviving_set_bound (m : Modulate) (p : SolveParams) (b : ℚ) :
    surviving m { p with oscillationBound := b } = surviving m p := rfl

/-- A rejected input makes `solve` fail with `InvalidInput`. -/
lemma solve_rejected_eq (m : Modulate) (p : SolveParams)
    (h : p.coeffs = [] ∨ p.rayCount ≤ 0 ∨ p.imagThreshold < 0) :
    solve m p = .error .InvalidInput := by
  unfold solve
  rw [if_pos h]

/-!
## Claim theorems
-/

/-- C1: a call to `solve` whose inputs violate a precondition (empty
coefficient vector, non-positive `rayCount`, or negative `imagThreshold`)
fails with an `InvalidInput` error and never proceeds to compute a radius. -/
theorem invalid_input_rejected (m : Modulate) (p : SolveParams)
    (h : p.coeffs = [] ∨ p.rayCount ≤ 0 ∨ p.imagThreshold < 0) :
    solve m p = .error .InvalidInput :=
  solve_rejected_eq m p h

/-- C1 witness: the call with `coeffs = []` yields `InvalidInput`. -/
theorem invalid_input_rejected_witness :
    solve mConst pNil = Except.error SolveError.InvalidInput :=
  invalid_input_rejected mConst pNil (Or.inl rfl)

/-- C2 (amended): on a valid input whose samples are all discarded by the
imaginary-part filter, `solve` fails with `AllSamplesInvalid` and returns no
aggregate; every call either fully succeeds with a finite radius —
non-negative whenever the oscillation bound is non-negative — or fails
atomically with an error. -/
theorem all_samples_discarded_fails (m : Modulate) (p : SolveParams) :
    (validInput p → surviving m p = [] →
      solve m p = .error .AllSamplesInvalid) ∧
    ((∃ r, solve m p = .ok r) ∨ (∃ e, solve m p = .error e)) ∧
    (∀ r, solve m p = .ok r → 0 ≤ p.oscillationBound → 0 ≤ r) := by
  refine ⟨fun hv hs => ?_, ?_, fun r hr hb => ?_⟩
  · rw [solve_valid_eq m p hv, hs]
  · cases h : solve m p with
    | ok r => exact Or.inl ⟨r, rfl⟩
    | error e => exact Or.inr ⟨e, rfl⟩
  · by_cases hinv : p.coeffs = [] ∨ p.rayCount ≤ 0 ∨ p.imagThreshold < 0
    · rw [solve_rejected_eq m p hinv] at hr
      exact absurd hr (by simp)
    · unfold solve at hr
      rw [if_neg hinv] at hr
      cases hs : surviving m p with
      | nil => rw [hs] at hr; exact absurd hr (by simp)
      | cons z zs =>
          rw [hs] at hr
          simp only [Except.ok.injEq] at hr
          subst hr
          exact le_min
            (aggregate_nonneg _ _ _ (abs_nonneg _) (magnitudes_nonneg zs)) hb

/-- C2 counterexample: the claim as stated also asserts that a successful call
returns a non-negative radius, yet the valid input `pNegBound2` (oscillation
bound `-2`) succeeds with the radius `-2`. -/
theorem all_samples_discarded_fails_cex :
    validInput pNegBound2 ∧
      solve mConst pNegBound2 = Except.ok (-2) ∧ ¬ (0 : ℚ) ≤ -2 :=
  ⟨by decide, by rfl, by norm_num⟩

/-- C2 witness: a valid call whose four samples all have imaginary part `1`
against the threshold `0` fails with `AllSamplesInvalid`. -/
theorem all_samples_discarded_fails_witness :
    solve mImag pThresh0 = Except.error SolveError.AllSamplesInvalid :=
  (all_samples_discarded_fails mImag pThresh0).1 (by decide) (by rfl)

/-- C3 (amended): on a valid input whose oscillation bound is non-negative and
on which at least one sample survives the filter, `solve` returns a finite
non-negative rational radius. -/
theorem valid_input_nonneg_radius (m : Modulate) (p : SolveParams)
    (hv : validInput p) (hb : 0 ≤ p.oscillationBound)
    (hs : surviving m p ≠ []) :
    ∃ r, solve m p = .ok r ∧ 0 ≤ r := by
  rw [solve_valid_eq m p hv]
  cases h : surviving m p with
  | nil => exact absurd h hs
  | cons z zs =>
      exact ⟨_, rfl,
        le_min (aggregate_nonneg _ _ _ (abs_nonneg _) (magnitudes_nonneg zs))
          hb⟩

/-- C3 counterexample: the claim as stated fails — the valid input
`pNegBound1` (oscillation bound `-1`) makes `solve` return the negative
radius `-1`. -/
theorem valid_input_nonneg_radius_cex :
    validInput pNegBound1 ∧ solve mConst pNegBound1 = Except.ok (-1) ∧
      ¬ (0 : ℚ) ≤ -1 :=
  ⟨by decide, by rfl, by norm_num⟩

/-- C3 witness: the end-to-end example input succeeds with a non-negative
radius. -/
theorem valid_input_nonneg_radius_witness :
    ∃ r, solve mConst pBase = Except.ok r ∧ 0 ≤ r :=
  valid_input_nonneg_radius mConst pBase (by decide) (by decide)
    (by decide)

/-- A call that is not rejected satisfies the §4.1 precondition. -/
lemma valid_of_not_rejected (p : SolveParams)
    (h : ¬(p.coeffs = [] ∨ p.rayCount ≤ 0 ∨ p.imagThreshold < 0)) :
    validInput p := by
  push_neg at h
  exact ⟨h.1, by omega, by linarith [h.2.2]⟩

/-- C4: on a valid input with surviving samples, the returned radius is the
unclamped aggregate clamped above by `oscillationBound`
(`r = min(aggregate, oscillationBound)`); hence the result equals the
clamp-free aggregate whenever the bound is at or above it — so raising the
bound beyond the aggregate never lowers the result below the clamp-free value
— and equals the bound whenever the bound is below the aggregate. -/
theorem oscillation_bound_clamps (m : Modulate) (p : SolveParams) (a : ℚ)
    (hv : validInput p) (ha : unclampedAggregate m p = some a) :
    solve m p = .ok (min a p.oscillationBound) ∧
    (a ≤ p.oscillationBound → solve m p = .ok a) ∧
    (p.oscillationBound ≤ a → solve m p = .ok p.oscillationBound) ∧
    (∀ b, a ≤ b → solve m { p with oscillationBound := b } = .ok a) := by
  unfold unclampedAggregate at ha
  cases hs : surviving m p with
  | nil => rw [hs] at ha; exact absurd ha (by simp)
  | cons z zs =>
      rw [hs] at ha
      simp only [Option.some.injEq] at ha
      have hmain : solve m p = .ok (min a p.oscillationBound) := by
        rw [solve_valid_eq m p hv, hs]
        show Except.ok
            (min (aggregate p.aggregateMax |z.1| (magnitudes zs))
              p.oscillationBound) =
          Except.ok (min a p.oscillationBound)
        rw [ha]
      refine ⟨hmain, fun h => ?_, fun h => ?_, fun b hb => ?_⟩
      · rw [hmain, min_eq_left h]
      · rw [hmain, min_eq_right h]
      · have hv' : validInput { p with oscillationBound := b } := hv
        rw [solve_valid_eq m _ hv', surviving_set_bound, hs]
        show Except.ok
            (min (aggregate p.aggregateMax |z.1| (magnitudes zs)) b) =
          Except.ok a
        rw [ha, min_eq_left hb]

/-- C4 witness: on the end-to-end example (aggregate `1`, bound `10`) the
clamp leaves the aggregate untouched. -/
theorem oscillation_bound_clamps_witness :
    solve mConst pBase = Except.ok (min 1 pBase.oscillationBound) :=
  (oscillation_bound_clamps mConst pBase 1 (by decide) (by rfl)).1

/-- C5: with all other inputs fixed, a successful call with
`aggregateMax = true` returns at least as much as a successful call with
`aggregateMax = false`: the max aggregate dominates the min aggregate over the
same surviving sample set. -/
theorem max_aggregate_dominates (m : Modulate) (p : SolveParams) (r1 r2 : ℚ)
    (hmax : p.aggregateMax = true)
    (h1 : solve m p = .ok r1)
    (h2 : solve m { p with aggregateMax := false } = .ok r2) :
    r2 ≤ r1 := by
  by_cases hinv : p.coeffs = [] ∨ p.rayCount ≤ 0 ∨ p.imagThreshold < 0
  · rw [solve_rejected_eq m p hinv] at h1
    exact absurd h1 (by simp)
  · have hv := valid_of_not_rejected p hinv
    have hv' : validInput { p with aggregateMax := false } := hv
    rw [solve_valid_eq m p hv] at h1
    rw [solve_valid_eq m _ hv', surviving_set_aggMax] at h2
    cases hs : surviving m p with
    | nil =>
        rw [hs] at h1
        exact absurd h1 (by simp)
    | cons z zs =>
        rw [hs] at h1 h2
        simp only [Except.ok.injEq] at h1 h2
        subst h1
        subst h2
        rw [hmax]
        show min (aggregate false |z.1| (magnitudes zs)) p.oscillationBound ≤
          min (aggregate true |z.1| (magnitudes zs)) p.oscillationBound
        exact min_le_min (aggregate_min_le_max _ _) le_rfl

/-- C5 witness: on the end-to-end example both aggregation modes succeed and
the max-mode value dominates the min-mode value. -/
theorem max_aggregate_dominates_witness : (1 : ℚ) ≤ 1 :=
  max_aggregate_dominates mConst pBase 1 1 rfl (by rfl) (by rfl)

/-- C6: `solve` is deterministic — two calls whose seven inputs agree
componentwise return the same output, and the ray-direction generation is
itself a pure function of the ray count. -/
theorem solve_deterministic (m : Modulate) (p q : SolveParams)
    (h1 : p.coeffs = q.coeffs) (h2 : p.freq = q.freq)
    (h3 : p.targetPoint = q.targetPoint)
    (h4 : p.oscillationBound = q.oscillationBound)
    (h5 : p.rayCount = q.rayCount) (h6 : p.aggregateMax = q.aggregateMax)
    (h7 : p.imagThreshold = q.imagThreshold) :
    solve m p = solve m q ∧
      rayTurns p.rayCount.toNat = rayTurns q.rayCount.toNat := by
  have hpq : p = q := by
    cases p; cases q; simp_all
  rw [hpq]
  exact ⟨rfl, rfl⟩

/-- C6 witness: the determinism theorem applied to two identical copies of the
end-to-end example. -/
theorem solve_deterministic_witness :
    solve mConst pBase = solve mConst pBase ∧
      rayTurns pBase.rayCount.toNat = rayTurns pBase.rayCount.toNat :=
  solve_deterministic mConst pBase pBase rfl rfl rfl rfl rfl rfl rfl

/-- C7: the algorithm samples exactly `rayCount` directions, one per index
`k ∈ [0, rayCount)`, the direction of index `k` being the angle
`θ_k = 2π·(k/rayCount) = 2πk/rayCount` (uniform angular sampling around the
unit circle); and `rayCount = 1` is a valid input that is not rejected by the
precondition checks. -/
theorem uniform_ray_sampling (m : Modulate) (p : SolveParams)
    (h1 : p.rayCount = 1) (hc : p.coeffs ≠ []) (ht : 0 ≤ p.imagThreshold) :
    (∀ n : ℕ, (rayTurns n).length = n) ∧
    (∀ n k : ℕ, k < n →
      2 * Real.pi * (((rayTurns n).getD k 0 : ℚ) : ℝ) =
        2 * Real.pi * k / n) ∧
    (∀ q : SolveParams, (samples m q).length = q.rayCount.toNat) ∧
    solve m p ≠ .error .InvalidInput := by
  refine ⟨fun n => ?_, fun n k hk => ?_, fun q => ?_, ?_⟩
  · rw [rayTurns, List.length_map, List.length_range]
  · have hlen : k < (rayTurns n).length := by
      rw [rayTurns, List.length_map, List.length_range]; exact hk
    have hget : (rayTurns n).getD k 0 = (k : ℚ) / n := by
      rw [List.getD_eq_getElem _ _ hlen]
      simp only [rayTurns, List.getElem_map, List.getElem_range]
    rw [hget]
    push_cast
    ring
  · rw [samples, List.length_map, rayTurns, List.length_map, List.length_range]
  · have hv : validInput p := ⟨hc, by omega, ht⟩
    rw [solve_valid_eq m p hv]
    cases surviving m p <;> simp

/-- C7 witness: with a single ray the precondition checks pass, and the
direction list of three rays has three entries. -/
theorem uniform_ray_sampling_witness :
    (rayTurns 3).length = 3 ∧
      solve mConst pRay1 ≠ Except.error SolveError.InvalidInput :=
  ⟨(uniform_ray_sampling mConst pRay1 rfl (by decide) (by decide)).1 3,
    (uniform_ray_sampling mConst pRay1 rfl (by decide) (by decide)).2.2.2⟩

/-- C8: `solve` terminates on every input with a bounded sampling loop: the
sample list has exactly `rayCount` entries, the filtered list at most
`rayCount`, and the call always completes with either a value or an error. -/
theorem solve_terminates_bounded (m : Modulate) (p : SolveParams) :
    (samples m p).length = p.rayCount.toNat ∧
    (surviving m p).length ≤ p.rayCount.toNat ∧
    ((∃ r, solve m p = .ok r) ∨ (∃ e, solve m p = .error e)) := by
  have hlen : (samples m p).length = p.rayCount.toNat := by
    rw [samples, List.length_map, rayTurns, List.length_map, List.length_range]
  refine ⟨hlen, ?_, ?_⟩
  · calc (surviving m p).length ≤ (samples m p).length :=
          List.length_filter_le _ _
      _ = p.rayCount.toNat := hlen
  · cases h : solve m p with
    | ok r => exact Or.inl ⟨r, rfl⟩
    | error e => exact Or.inr ⟨e, rfl⟩

/-- C9: `mexFunction` reads all seven input slots `prhs[0]`..`prhs[6]`
unconditionally — it never consults `nlhs` or `nrhs` — and declares a VLA
sized by `mxGetM(prhs[0])`; in the total `Option` embedding the out-of-bounds
and zero-size-VLA branches are avoided exactly when at least seven inputs are
supplied and the first input has at least one row. -/
theorem mexFunction_reads_unchecked (g : KernelFn)
    (nlhs nrhs nlhs' nrhs' : ℤ) (prhs : List MxArray) :
    mexFunction g nlhs nrhs prhs = mexFunction g nlhs' nrhs' prhs ∧
    ((mexFunction g nlhs nrhs prhs).isSome ↔
      7 ≤ prhs.length ∧ 0 < prhs.headI.rows) := by
  refine ⟨rfl, ?_⟩
  rcases prhs with _ | ⟨a0, _ | ⟨a1, _ | ⟨a2, _ | ⟨a3, _ | ⟨a4, _ |
    ⟨a5, _ | ⟨a6, rest⟩⟩⟩⟩⟩⟩⟩
  · simp [mexFunction]
  · by_cases h0 : a0.rows = 0 <;> simp [mexFunction, h0, List.headI]
  · by_cases h0 : a0.rows = 0 <;> simp [mexFunction, h0, List.headI]
  · by_cases h0 : a0.rows = 0 <;> simp [mexFunction, h0, List.headI]
  · by_cases h0 : a0.rows = 0 <;> simp [mexFunction, h0, List.headI]
  · by_cases h0 : a0.rows = 0 <;> simp [mexFunction, h0, List.headI]
  · by_cases h0 : a0.rows = 0 <;> simp [mexFunction, h0, List.headI]
  · by_cases h0 : a0.rows = 0 <;>
      simp [mexFunction, h0, List.headI]
    omega

/-- C10: whenever the wrapper returns, it returns exactly one output,
`plhs[0]`, a `1×1` real (`mxREAL`) matrix holding the radius — never a
complex-valued or non-scalar result. -/
theorem mexFunction_single_real_scalar_output (g : KernelFn) (nlhs nrhs : ℤ)
    (prhs outs : List MxArray)
    (h : mexFunction g nlhs nrhs prhs = some outs) :
    outs.length = 1 ∧ ∃ r : ℚ, outs = [⟨1, 1, [r], []⟩] := by
  rcases prhs with _ | ⟨a0, _ | ⟨a1, _ | ⟨a2, _ | ⟨a3, _ | ⟨a4, _ |
    ⟨a5, _ | ⟨a6, rest⟩⟩⟩⟩⟩⟩⟩
  · simp [mexFunction] at h
  · by_cases h0 : a0.rows = 0 <;> simp [mexFunction, h0] at h
  · by_cases h0 : a0.rows = 0 <;> simp [mexFunction, h0] at h
  · by_cases h0 : a0.rows = 0 <;> simp [mexFunction, h0] at h
  · by_cases h0 : a0.rows = 0 <;> simp [mexFunction, h0] at h
  · by_cases h0 : a0.rows = 0 <;> simp [mexFunction, h0] at h
  · by_cases h0 : a0.rows = 0 <;> simp [mexFunction, h0] at h
  · by_cases h0 : a0.rows = 0
    · simp [mexFunction, h0] at h
    · simp [mexFunction, h0] at h
      subst h
      exact ⟨rfl, _, rfl⟩

/-- C10 witness: a concrete full call returns the single `1×1` real scalar
holding the kernel value `3`. -/
theorem mexFunction_single_real_scalar_output_witness :
    [(⟨1, 1, [3], []⟩ : MxArray)].length = 1 ∧
      ∃ r : ℚ, [(⟨1, 1, [3], []⟩ : MxArray)] = [⟨1, 1, [r], []⟩] :=
  mexFunction_single_real_scalar_output gssbConst 1 7 prhs7
    [⟨1, 1, [3], []⟩] (by rfl)
